import Mathlib

/-
Verification of the WordPhaseEngine of the ReadingGame repository.

The definitions below are a shallow embedding of the word-game state
machine in src/src/components/WordsGame.tsx (three component variants)
and of the audio helpers in src/src/engine/speech.ts.  React state
setters are modelled as explicit state passing on an EngineState record;
the parallel mutable refs of the source mirror the state and are
therefore not duplicated.  Timers are modelled in a separate Sys layer
with an explicit timer queue, ids, and the blendTimeoutsRef group.
-/

namespace ReadingGame

/-- LETTERS = "ABCDEFGHIJKLMNOPQRSTUVWXYZ".split("") -/
def LETTERS : List Char := "ABCDEFGHIJKLMNOPQRSTUVWXYZ".toList

/-- WORDS: Word[] = ["DOG", "CAT"] -/
def WORDS : List String := ["DOG", "CAT"]

/-- const BUFFER_MAX = 16 -/
def BUFFER_MAX : Nat := 16

/-- const BUFFER_ITEM_TTL_MS = 3000 -/
def BUFFER_ITEM_TTL_MS : Nat := 3000

/-- const KEY_REPEAT_GUARD_MS = 30 -/
def KEY_REPEAT_GUARD_MS : Nat := 30

/-- The Phase sum type of WordsGame.tsx: click_letter(clickIndex),
blend_prefix(k), type_prefix(k).  The TS literal types 0|1|2 and 2|3 are
widened to Nat; theorems carry the range hypotheses explicitly. -/
inductive Phase where
  | clickLetter (clickIndex : Nat)
  | blendPfx (k : Nat)
  | typePfx (k : Nat)
deriving DecidableEq, Repr

/-- interface KeyEvent of grouping key and timestamp t. -/
structure KeyEvent where
  key : Char
  t : Nat
deriving DecidableEq, Repr

/-- The React state of the buffered WordsGame component (first variant),
including the two ring-buffer refs.  typedBuffer is kept as a list of
characters (the TS string). -/
structure EngineState where
  wordIndex : Nat
  phase : Phase
  typedBuffer : List Char
  blendHighlightStep : Nat
  typingCurrentIndex : Nat
  announcement : String
  showImage : Bool
  keyBuffer : List KeyEvent
  lastKey : Option KeyEvent
  lastAuto : String
deriving DecidableEq, Repr

/-- Observable side effects emitted by the input handlers: sound-effect
playback, assistive announcements, the value handed to setTypedBuffer,
and the clearBlendTimeouts call of resetForNext. -/
inductive Effect where
  | soundEffect (kind : String)
  | announce (msg : String)
  | typedSet (buf : List Char)
  | clearBlendTimeouts
deriving DecidableEq, Repr

/-- letters = word.split("") where word = WORDS[wordIndex]. -/
def lettersOf (wi : Nat) : List Char := (WORDS.getD wi "").toList

/-- pruneBuffer: remove buffer items older than the TTL.  The TS check
is now - ev.t < BUFFER_ITEM_TTL_MS on numbers; with Nat truncated
subtraction the comparison agrees because a negative difference is
always below the TTL, exactly as 0 is. -/
def pruneState (now : Nat) (s : EngineState) : EngineState :=
  { s with keyBuffer :=
      s.keyBuffer.filter (fun ev => decide (now - ev.t < BUFFER_ITEM_TTL_MS)) }

/-- addToBuffer: prune, apply the 30 ms same-key repeat guard, record
lastKey, drop the oldest entry when at capacity, and push. -/
def addToBuffer (now : Nat) (key : Char) (s0 : EngineState) : EngineState :=
  let s := pruneState now s0
  let isRepeat : Bool :=
    match s.lastKey with
    | some lk => lk.key == key && decide (now - lk.t < KEY_REPEAT_GUARD_MS)
    | none => false
  if isRepeat then s
  else
    let s1 := { s with lastKey := some ⟨key, now⟩ }
    let buf := if BUFFER_MAX ≤ s1.keyBuffer.length then s1.keyBuffer.tail else s1.keyBuffer
    { s1 with keyBuffer := buf ++ [⟨key, now⟩] }

/-- getExpectedLetter: letters[clickIndex] during click_letter, the
letter at the typing index within the first k letters during
type_prefix (the TS expression target[index] || null), and null during
blend_prefix. -/
def getExpectedLetter (s : EngineState) : Option Char :=
  match s.phase with
  | .clickLetter i => (lettersOf s.wordIndex)[i]?
  | .typePfx k => ((lettersOf s.wordIndex).take k)[s.typingCurrentIndex]?
  | .blendPfx _ => none

/-- advanceToNextPhase: the click_letter successor table. -/
def advanceToNextPhase (s : EngineState) : EngineState :=
  match s.phase with
  | .clickLetter 0 => { s with phase := .clickLetter 1, typedBuffer := [] }
  | .clickLetter 1 => { s with phase := .blendPfx 2, typedBuffer := [] }
  | .clickLetter 2 => { s with phase := .blendPfx 3, typedBuffer := [] }
  | _ => s

/-- resetForNext: cancel blend timers, empty the type-ahead buffer,
rotate to the next word and restart at click_letter(0). -/
def resetForNext (s : EngineState) : EngineState × List Effect :=
  ({ wordIndex := (s.wordIndex + 1) % WORDS.length
   , phase := .clickLetter 0
   , typedBuffer := []
   , blendHighlightStep := 0
   , typingCurrentIndex := 0
   , announcement := ""
   , showImage := false
   , keyBuffer := []
   , lastKey := none
   , lastAuto := "" },
   [.clearBlendTimeouts])

/-- handleCorrectLetterClick: play the correct cue, announce, and
advance immediately via advanceToNextPhase. -/
def handleCorrectLetterClick (s : EngineState) : EngineState × List Effect :=
  let s1 := advanceToNextPhase { s with announcement := "Correct" }
  (s1, [.soundEffect "correct", .announce "Correct"])

/-- handleCorrectType: append the key (uppercased) to the typed buffer,
advance the typing index, and when the index reaches k either move to
click_letter(2) (k = 2) or reset for the next word (k = 3).  The nested
setTypingCurrentIndex(0) calls of the source make the committed index 0
in both completion branches. -/
def handleCorrectType (ch : Char) (s : EngineState) : EngineState × List Effect :=
  let nextBuffer := (s.typedBuffer ++ [ch]).map Char.toUpper
  let nextIndex := s.typingCurrentIndex + 1
  let s1 := { s with announcement := "Correct", typedBuffer := nextBuffer }
  let base : List Effect := [.soundEffect "correct", .announce "Correct", .typedSet nextBuffer]
  match s.phase with
  | .typePfx k =>
    if nextIndex = k then
      if k = 2 then
        ({ s1 with phase := .clickLetter 2, typedBuffer := [], typingCurrentIndex := 0,
                   showImage := false }, base)
      else if k = 3 then
        let (s2, eff) := resetForNext { s1 with showImage := false, typingCurrentIndex := nextIndex }
        (s2, base ++ eff)
      else ({ s1 with typingCurrentIndex := nextIndex }, base)
    else ({ s1 with typingCurrentIndex := nextIndex }, base)
  | _ => ({ s1 with typingCurrentIndex := nextIndex }, base)

/-- The body of one buffer consumption: splice index i out of the
buffer and apply the correct-input handler of the current phase. -/
def consumeStep (expected : Char) (i : Nat) (s : EngineState) : EngineState × List Effect :=
  let s1 := { s with keyBuffer := s.keyBuffer.eraseIdx i }
  match s.phase with
  | .clickLetter _ => handleCorrectLetterClick s1
  | .typePfx _ => handleCorrectType expected s1
  | _ => (s1, [])

/-- processBuffer, fuelled: prune, look up the expected letter, find the
earliest buffered entry equal to it, splice it out, apply the correct
handler for the current phase, and recurse.  The source recursion
always removes one entry before recursing, so the fuel only needs to
cover the buffer length; the theorems below prove fuel indifference. -/
def processBufferFuel : Nat → Nat → EngineState → EngineState × List Effect
  | 0, _, s => (s, [])
  | fuel + 1, now, s0 =>
    let s := pruneState now s0
    match getExpectedLetter s with
    | none => (s, [])
    | some expected =>
      match s.keyBuffer.findIdx? (fun ev => ev.key == expected) with
      | none => (s, [])
      | some i =>
        let r := consumeStep expected i s
        let r2 := processBufferFuel fuel now r.1
        (r2.1, r.2 ++ r2.2)

/-- processBuffer with enough fuel for one full drain pass. -/
def processBuffer (now : Nat) (s : EngineState) : EngineState × List Effect :=
  processBufferFuel (s.keyBuffer.length + 1) now s

/-- The keydown handler of the buffered variant: uppercase the key,
ignore non-alphabetic input and input during blend_prefix; on the
expected key push to the buffer and drain; on a wrong key play the
wrong cue, announce, and still push to the buffer without draining. -/
def onKey (now : Nat) (c : Char) (s : EngineState) : EngineState × List Effect :=
  let ch := c.toUpper
  if ch ∈ LETTERS then
    match s.phase with
    | .blendPfx _ => (s, [])
    | _ =>
      match getExpectedLetter s with
      | some e =>
        if ch = e then processBuffer now (addToBuffer now ch s)
        else (addToBuffer now ch { s with announcement := "Try again" },
              [.soundEffect "wrong", .announce "Try again"])
      | none => (s, [])
  else (s, [])

/-- The committed outcome of the blend_prefix timer chain: the red
callback sets the animation step to k+1 and its inner 100 ms timeout
moves to type_prefix(k), resetting the typing progress and hiding the
image unless k = 3. -/
def blendTimerFire (s : EngineState) : EngineState :=
  match s.phase with
  | .blendPfx k =>
    { s with blendHighlightStep := k + 1,
             phase := .typePfx k, typedBuffer := [], typingCurrentIndex := 0,
             showImage := if k ≠ 3 then false else s.showImage }
  | _ => s

/-- Position of a phase in the fixed total order per word:
clickLetter 0, clickLetter 1, blendPfx 2, typePfx 2, clickLetter 2,
blendPfx 3, typePfx 3. -/
def phaseRank : Phase → Nat
  | .clickLetter 0 => 0
  | .clickLetter 1 => 1
  | .blendPfx 2 => 2
  | .typePfx 2 => 3
  | .clickLetter 2 => 4
  | .blendPfx 3 => 5
  | .typePfx 3 => 6
  | _ => 99

/-- A driver input: a key press at a given time, or the completion of
the blend timer chain. -/
inductive GInput where
  | key (c : Char)
  | blendDone
deriving DecidableEq, Repr

/-- One driver step. -/
def gstep (now : Nat) (i : GInput) (s : EngineState) : EngineState :=
  match i with
  | .key c => (onKey now c s).1
  | .blendDone => blendTimerFire s

/-- All intermediate states of a timed input trace. -/
def grunStates (inputs : List (Nat × GInput)) (s : EngineState) : List EngineState :=
  match inputs with
  | [] => []
  | (t, i) :: rest =>
    let s1 := gstep t i s
    s1 :: grunStates rest s1

/-- The initial component state. -/
def initState : EngineState :=
  { wordIndex := 0, phase := .clickLetter 0, typedBuffer := [], blendHighlightStep := 0,
    typingCurrentIndex := 0, announcement := "", showImage := false,
    keyBuffer := [], lastKey := none, lastAuto := "" }

/-- A full correct pass over the first word: D, O, blend, D, O, G,
blend, D, O, G, with well-spaced timestamps. -/
def fullPassInputs : List (Nat × GInput) :=
  [(0, .key 'D'), (100, .key 'O'), (200, .blendDone),
   (300, .key 'D'), (400, .key 'O'), (500, .key 'G'), (600, .blendDone),
   (700, .key 'D'), (800, .key 'O'), (900, .key 'G')]

/-! Variant 3 of WordsGame.tsx: the strict non-buffered component whose
handleType accumulates the typed string and checks it with
target.startsWith(next). -/

/-- The state of the strict variant (no typing index, no key buffer). -/
structure StrictState where
  wordIndex : Nat
  phase : Phase
  typedBuffer : List Char
  blendHighlightStep : Nat
deriving DecidableEq, Repr

/-- resetForNext of the strict variant. -/
def strictResetForNext (s : StrictState) : StrictState :=
  { wordIndex := (s.wordIndex + 1) % WORDS.length, phase := .clickLetter 0,
    typedBuffer := [], blendHighlightStep := 0 }

/-- handleType of the strict variant: next = typedBuffer + ch uppercased;
reject unless next is a prefix of the uppercased k-letter target
(target.startsWith(next)); on completion move to click_letter(2) for
k = 2 or reset for the next word for k = 3 (the 350 ms delay of the
source is collapsed to its committed outcome). -/
def strictHandleType (ch : Char) (s : StrictState) : StrictState × List Effect :=
  match s.phase with
  | .typePfx k =>
    let target := ((lettersOf s.wordIndex).take k).map Char.toUpper
    let next := (s.typedBuffer ++ [ch]).map Char.toUpper
    if target.take next.length = next then
      let s1 := { s with typedBuffer := next }
      if next = target then
        if k = 2 then
          ({ s1 with phase := .clickLetter 2, typedBuffer := [] },
           [.typedSet next, .soundEffect "success"])
        else if k = 3 then
          (strictResetForNext s1, [.typedSet next, .soundEffect "success"])
        else (s1, [.typedSet next, .soundEffect "success"])
      else (s1, [.typedSet next, .soundEffect "success"])
    else (s, [.soundEffect "failure"])
  | _ => (s, [])

/-- Fold strictHandleType over a list of submitted keys, accumulating
the effect trace. -/
def strictSubmitAll (cs : List Char) (s : StrictState) : StrictState × List Effect :=
  match cs with
  | [] => (s, [])
  | c :: rest =>
    let r1 := strictHandleType c s
    let r2 := strictSubmitAll rest r1.1
    (r2.1, r1.2 ++ r2.2)

/-- Fold handleCorrectType over a list of submitted keys (the buffered
variant accepts each correct key through this handler). -/
def submitAll (cs : List Char) (s : EngineState) : EngineState × List Effect :=
  match cs with
  | [] => (s, [])
  | c :: rest =>
    let r1 := handleCorrectType c s
    let r2 := submitAll rest r1.1
    (r2.1, r1.2 ++ r2.2)

/-- The canonical strict-variant state on entering type_prefix(k). -/
def strictTypeEntry (wi k : Nat) : StrictState :=
  { wordIndex := wi, phase := .typePfx k, typedBuffer := [], blendHighlightStep := k + 1 }

/-- The canonical state in which the engine enters type_prefix(k): the
committed outcome of the blend timer chain over word wi. -/
def typeEntry (wi k : Nat) : EngineState :=
  { wordIndex := wi, phase := .typePfx k, typedBuffer := [],
    blendHighlightStep := k + 1, typingCurrentIndex := 0, announcement := "",
    showImage := decide (k = 3), keyBuffer := [], lastKey := none,
    lastAuto := "" }

/-! Variant 2 of WordsGame.tsx: the non-buffered component with a typing
index.  It shares the state fields of EngineState (the key buffer
fields are simply unused by it). -/

/-- handleType of variant 2: compare the pressed key (uppercased) with
target[typingCurrentIndex]; a wrong key plays the wrong cue and leaves
everything else unchanged; a correct key appends to the typed buffer
and, after the 1.5 s delay collapsed to its committed outcome, advances
the index and transitions when it reaches k. -/
def handleType2 (ch : Char) (s : EngineState) : EngineState × List Effect :=
  match s.phase with
  | .typePfx k =>
    let target := ((lettersOf s.wordIndex).take k).map Char.toUpper
    let pressed := ch.toUpper
    match target[s.typingCurrentIndex]? with
    | none =>
      ({ s with announcement := "Try again" }, [.soundEffect "wrong", .announce "Try again"])
    | some e =>
      if pressed = e then
        let next := (s.typedBuffer ++ [ch]).map Char.toUpper
        let nextIndex := s.typingCurrentIndex + 1
        let s1 := { s with announcement := "Correct", typedBuffer := next,
                           typingCurrentIndex := nextIndex }
        let base : List Effect := [.soundEffect "correct", .announce "Correct", .typedSet next]
        if nextIndex = k then
          if k = 2 then
            ({ s1 with phase := .clickLetter 2, typedBuffer := [], typingCurrentIndex := 0,
                       showImage := false }, base)
          else if k = 3 then
            let r := resetForNext { s1 with showImage := false }
            (r.1, base ++ r.2)
          else (s1, base)
        else (s1, base)
      else
        ({ s with announcement := "Try again" }, [.soundEffect "wrong", .announce "Try again"])
  | _ => (s, [])

/-! The auto-pronounce useEffect and its duplicate-trigger guard. -/

/-- Entry actions performed by the auto-pronounce effect. -/
inductive AutoAct where
  | letterSound (c : Char)
  | clip (base : String)
  | animReset
  | showImg
deriving DecidableEq, Repr

/-- The phase.type tag string. -/
def phaseTypeName : Phase → String
  | .clickLetter _ => "click_letter"
  | .blendPfx _ => "blend_prefix"
  | .typePfx _ => "type_prefix"

/-- The sub-index of a phase: clickIndex for click_letter, k otherwise. -/
def phaseSub : Phase → Nat
  | .clickLetter i => i
  | .blendPfx k => k
  | .typePfx k => k

/-- The signature string word:phase.type:subindex compared against
lastAutoRef. -/
def phaseSignature (word : String) (p : Phase) : String :=
  word ++ ":" ++ phaseTypeName p ++ ":" ++ toString (phaseSub p)

/-- The auto-pronounce effect body: skip everything when the signature
equals the stored one; otherwise store the new signature and perform
the entry actions of the phase (letter audio; or blend clip, image for
k = 3, and animation restart; or nothing for type_prefix). -/
def autoRun (word : String) (p : Phase) (lastAuto : String) : String × List AutoAct :=
  let key := phaseSignature word p
  if lastAuto = key then (lastAuto, [])
  else
    (key,
     match p with
     | .clickLetter i => [.letterSound (word.toList.getD i ' ')]
     | .blendPfx k =>
         [.clip (String.mk (word.toList.take k))]
           ++ (if k = 3 then [.showImg] else []) ++ [.animReset]
     | .typePfx _ => [])

/-! src/src/engine/speech.ts: the phonics table, the TTS fallback, and
the two playLetterSound variants.  Browser promise outcomes are
enumerated explicitly; the embedding mirrors the branching of the
source, and a result of .resolved records that resolve() was called. -/

/-- type Phon = { name, sound } -/
structure Phon where
  name : String
  sound : String
deriving DecidableEq, Repr

/-- The PHONICS record of speech.ts. -/
def PHONICS : List (String × Phon) :=
  [("A", ⟨"ay", "ah"⟩), ("B", ⟨"bee", "buh"⟩), ("C", ⟨"see", "kuh"⟩),
   ("D", ⟨"dee", "duh"⟩), ("E", ⟨"ee", "eh"⟩), ("F", ⟨"ef", "fff"⟩),
   ("G", ⟨"jee", "guh"⟩), ("H", ⟨"aitch", "hhh"⟩), ("I", ⟨"eye", "ih"⟩),
   ("J", ⟨"jay", "juh"⟩), ("K", ⟨"kay", "kuh"⟩), ("L", ⟨"el", "lll"⟩),
   ("M", ⟨"em", "mmm"⟩), ("N", ⟨"en", "nnn"⟩), ("O", ⟨"oh", "aw"⟩),
   ("P", ⟨"pee", "puh"⟩), ("Q", ⟨"cue", "kw"⟩), ("R", ⟨"ar", "rrr"⟩),
   ("S", ⟨"es", "sss"⟩), ("T", ⟨"tee", "tuh"⟩), ("U", ⟨"you", "uh"⟩),
   ("V", ⟨"vee", "vvv"⟩), ("W", ⟨"double you", "wuh"⟩),
   ("X", ⟨"ex", "ks"⟩), ("Y", ⟨"why", "yuh"⟩), ("Z", ⟨"zee", "zzz"⟩)]

/-- PHONICS[letter] lookup. -/
def phonicsLookup (l : String) : Option Phon :=
  (PHONICS.find? (fun p => p.1 == l)).map (fun p => p.2)

/-- The utterance text built by ttsLetter: "L, name. sound" when the
letter has a phonics entry, the letter itself otherwise. -/
def ttsUtterance (letter : String) : String :=
  match phonicsLookup letter with
  | some p => letter ++ ", " ++ p.name ++ ". " ++ p.sound
  | none => letter

/-- The outcome of one HTMLAudioElement play() call: the returned
promise fulfils and the clip later ends, or the promise rejects. -/
inductive PlayOutcome where
  | ends
  | rejects
deriving DecidableEq, Repr

/-- How the promise returned by playLetterSound settles. -/
inductive PromiseResult where
  | resolved
  | rejected
  | thrown
deriving DecidableEq, Repr

/-- Audible outcomes of a playLetterSound call. -/
inductive AudioEvent where
  | ttsSpoken (utterance : String)
  | played (letter : String)
deriving DecidableEq, Repr

/-- The tts fallback: ttsLetter speaks the phonetic utterance, or does
nothing when speech synthesis itself is unavailable (its try/catch
swallows the error). -/
def ttsEvents (ttsOk : Bool) (l : String) : List AudioEvent :=
  if ttsOk then [.ttsSpoken (ttsUtterance l)] else []

/-- The environment of the simple playLetterSound variant: whether the
letter has a cached audio element, whether the try block throws, how
play() settles, and whether speech synthesis works. -/
structure Env1 where
  cached : Bool
  setupThrows : Bool
  play : PlayOutcome
  ttsOk : Bool
deriving DecidableEq, Repr

/-- playLetterSound (simple variant, speech.ts lines 69 to 85): uppercase
the letter; with no cached element fall back to TTS and resolve; with a
cached element resolve on ended, or fall back to TTS and resolve when
play() rejects or the setup throws. -/
def playLetterSound1 (letter : String) (env : Env1) : PromiseResult × List AudioEvent :=
  let L := letter.toUpper
  if env.cached then
    if env.setupThrows then (.resolved, ttsEvents env.ttsOk L)
    else
      match env.play with
      | .ends => (.resolved, [.played L])
      | .rejects => (.resolved, ttsEvents env.ttsOk L)
  else (.resolved, ttsEvents env.ttsOk L)

/-- The environment of the Web Audio playLetterSound variant. -/
structure Env2 where
  cached : Bool
  webAudio : Bool
  sourceOk : Bool
  waTryThrows : Bool
  play1 : PlayOutcome
  play2 : PlayOutcome
  fbTryThrows : Bool
  fbPlay : PlayOutcome
  ttsOk : Bool
deriving DecidableEq, Repr

/-- The HTMLAudioElement fallback tail of the Web Audio variant. -/
def playFallbackHtml (L : String) (env : Env2) : PromiseResult × List AudioEvent :=
  if env.fbTryThrows then (.resolved, ttsEvents env.ttsOk L)
  else
    match env.fbPlay with
    | .ends => (.resolved, [.played L])
    | .rejects => (.resolved, ttsEvents env.ttsOk L)

/-- playLetterSound (Web Audio variant, speech.ts lines 229 to 271): no
cached element goes straight to TTS; with Web Audio and a media source
the first play() resolves on ended, retries once on rejection, and
falls back to TTS when the retry also rejects; a throw in the Web Audio
setup, or no Web Audio, drops to the HTMLAudioElement fallback. -/
def playLetterSound2 (letter : String) (env : Env2) : PromiseResult × List AudioEvent :=
  let L := letter.toUpper
  if env.cached then
    if env.webAudio && env.sourceOk then
      if env.waTryThrows then playFallbackHtml L env
      else
        match env.play1 with
        | .ends => (.resolved, [.played L])
        | .rejects =>
          match env.play2 with
          | .ends => (.resolved, [.played L])
          | .rejects => (.resolved, ttsEvents env.ttsOk L)
    else playFallbackHtml L env
  else (.resolved, ttsEvents env.ttsOk L)

/-! The timer layer: an explicit queue of scheduled callbacks with ids,
together with the blendTimeoutsRef group, modelling window.setTimeout,
window.clearTimeout, and the ordering of the cooperative event loop. -/

/-- The timer callbacks scheduled by the component. -/
inductive TimerCb where
  | setStep (n : Nat)
  | redStep (k : Nat)
  | toType (k : Nat)
  | clearAnn
deriving DecidableEq, Repr

/-- A scheduled timer: id, absolute due time, callback. -/
structure Timer where
  id : Nat
  due : Nat
  cb : TimerCb
deriving DecidableEq, Repr

/-- The component together with its pending timers:
blendIds mirrors blendTimeoutsRef.current, nextId generates fresh
timeout ids. -/
structure Sys where
  st : EngineState
  timers : List Timer
  blendIds : List Nat
  nextId : Nat
deriving DecidableEq, Repr

/-- window.setTimeout: append a timer with a fresh id; when tracked,
also push the id onto blendTimeoutsRef. -/
def schedule (due : Nat) (cb : TimerCb) (tracked : Bool) (y : Sys) : Sys :=
  { y with timers := y.timers ++ [⟨y.nextId, due, cb⟩],
           nextId := y.nextId + 1,
           blendIds := if tracked then y.blendIds ++ [y.nextId] else y.blendIds }

/-- clearBlendTimeouts: clearTimeout every id in blendTimeoutsRef and
empty the ref. -/
def sysClearBlendTimeouts (y : Sys) : Sys :=
  { y with timers := y.timers.filter (fun tm => !(y.blendIds.contains tm.id)),
           blendIds := [] }

/-- The blend_prefix entry of the auto-pronounce effect at time now:
clear the blend group, restart the animation step, show the image for
k = 3, schedule the k staggered step timers at i*1000 and the red timer
at k*1000, all tracked in the blend group. -/
def enterBlend (now k : Nat) (y0 : Sys) : Sys :=
  let y1 := sysClearBlendTimeouts y0
  let y2 := { y1 with st := { y1.st with
      blendHighlightStep := 0,
      showImage := if k = 3 then true else y1.st.showImage } }
  let y3 := (List.range k).foldl
    (fun y i => schedule (now + i * 1000) (.setStep (i + 1)) true y) y2
  schedule (now + k * 1000) (.redStep k) true y3

/-- Run one timer callback at its due time.  The red callback sets the
terminal step and schedules the inner 100 ms transition timeout, which
the source does not register in blendTimeoutsRef (tracked := false). -/
def runCb (now : Nat) (cb : TimerCb) (y : Sys) : Sys :=
  match cb with
  | .setStep n => { y with st := { y.st with blendHighlightStep := n } }
  | .redStep k =>
    let y1 := { y with st := { y.st with blendHighlightStep := k + 1 } }
    schedule (now + 100) (.toType k) false y1
  | .toType k =>
    { y with st := { y.st with
        phase := .typePfx k,
        typedBuffer := [],
        typingCurrentIndex := 0,
        showImage := if k ≠ 3 then false else y.st.showImage } }
  | .clearAnn => { y with st := { y.st with announcement := "" } }

/-- The earliest-due pending timer at or before time t (ties broken by
scheduling order, as the event loop does). -/
def pickDue (t : Nat) (ts : List Timer) : Option Timer :=
  (ts.filter (fun tm => decide (tm.due ≤ t))).foldl
    (fun acc tm =>
      match acc with
      | none => some tm
      | some a => if tm.due < a.due then some tm else acc) none

/-- Advance the event loop to time t: repeatedly fire the earliest
pending timer due at or before t. -/
def runUntil (fuel : Nat) (t : Nat) (y : Sys) : Sys :=
  match fuel with
  | 0 => y
  | fuel' + 1 =>
    match pickDue t y.timers with
    | none => y
    | some tm =>
      let y1 := { y with timers := y.timers.filter (fun u => u.id != tm.id) }
      runUntil fuel' t (runCb tm.due tm.cb y1)

/-- Interpret the timer-relevant effects of the pure layer: every
announcement schedules its 1000 ms auto-clear (not in the blend group),
and resetForNext clears the blend group. -/
def applyEffects (now : Nat) (effs : List Effect) (y : Sys) : Sys :=
  effs.foldl
    (fun y e =>
      match e with
      | .announce _ => schedule (now + 1000) .clearAnn false y
      | .clearBlendTimeouts => sysClearBlendTimeouts y
      | _ => y) y

/-- The keydown handler at the Sys level: run the pure handler and
interpret its effects into the timer queue. -/
def onKeySys (now : Nat) (c : Char) (y : Sys) : Sys :=
  let r := onKey now c y.st
  applyEffects now r.2 { y with st := r.1 }

/-- resetForNext at the Sys level. -/
def resetForNextSys (now : Nat) (y : Sys) : Sys :=
  let r := resetForNext y.st
  applyEffects now r.2 { y with st := r.1 }

/-- The initial system. -/
def initSys : Sys := { st := initState, timers := [], blendIds := [], nextId := 0 }

/-! Helper lemmas about the buffer operations. -/

lemma pruneState_keyBuffer_le (now : Nat) (s : EngineState) :
    (pruneState now s).keyBuffer.length ≤ s.keyBuffer.length :=
  List.length_filter_le _ _

lemma getExpectedLetter_pruneState (now : Nat) (s : EngineState) :
    getExpectedLetter (pruneState now s) = getExpectedLetter s := rfl

lemma handleCorrectLetterClick_keyBuffer (s : EngineState) :
    (handleCorrectLetterClick s).1.keyBuffer = s.keyBuffer := by
  obtain ⟨wi, ph, tb, bhs, tci, ann, si, kb, lk, la⟩ := s
  unfold handleCorrectLetterClick advanceToNextPhase
  cases ph with
  | clickLetter i =>
    match i with
    | 0 => rfl
    | 1 => rfl
    | 2 => rfl
    | (n + 3) => rfl
  | blendPfx k => rfl
  | typePfx k => rfl

lemma handleCorrectType_keyBuffer_le (ch : Char) (s : EngineState) :
    (handleCorrectType ch s).1.keyBuffer.length ≤ s.keyBuffer.length := by
  obtain ⟨wi, ph, tb, bhs, tci, ann, si, kb, lk, la⟩ := s
  unfold handleCorrectType resetForNext
  cases ph with
  | typePfx k =>
    dsimp only
    split
    · split
      · exact Nat.le_refl _
      · split
        · exact Nat.zero_le _
        · exact Nat.le_refl _
    · exact Nat.le_refl _
  | clickLetter i => exact Nat.le_refl _
  | blendPfx k => exact Nat.le_refl _

/-- One-step unfolding of processBufferFuel at positive fuel. -/
lemma processBufferFuel_succ (fuel now : Nat) (s0 : EngineState) :
    processBufferFuel (fuel + 1) now s0 =
      (let s := pruneState now s0
       match getExpectedLetter s with
       | none => (s, [])
       | some expected =>
         match s.keyBuffer.findIdx? (fun ev => ev.key == expected) with
         | none => (s, [])
         | some i =>
           let r := consumeStep expected i s
           let r2 := processBufferFuel fuel now r.1
           (r2.1, r.2 ++ r2.2)) := rfl

/-- The consumption step strictly shrinks the key buffer: the handlers
never add buffered keys, and the splice removed one. -/
lemma consume_keyBuffer_lt (e : Char) (i : Nat) (s : EngineState)
    (hi : i < s.keyBuffer.length) :
    (consumeStep e i s).1.keyBuffer.length < s.keyBuffer.length := by
  unfold consumeStep
  obtain ⟨wi, ph, tb, bhs, tci, ann, si, kb, lk, la⟩ := s
  simp only at hi ⊢
  have he : (kb.eraseIdx i).length = kb.length - 1 := by
    rw [List.length_eraseIdx]
    simp [hi]
  cases ph with
  | clickLetter j =>
    rw [handleCorrectLetterClick_keyBuffer]
    simp only [he]
    omega
  | typePfx k =>
    have h2 := handleCorrectType_keyBuffer_le e
      { wordIndex := wi, phase := Phase.typePfx k, typedBuffer := tb,
        blendHighlightStep := bhs, typingCurrentIndex := tci, announcement := ann,
        showImage := si, keyBuffer := kb.eraseIdx i, lastKey := lk, lastAuto := la }
    simp only [he] at h2 ⊢
    omega
  | blendPfx k =>
    simp only [he]
    omega

/-- Fuel indifference: any fuel covering the pruned buffer length plus
one produces the same drain result. -/
lemma processBufferFuel_stable :
    ∀ (n now : Nat) (s : EngineState) (f : Nat),
      (pruneState now s).keyBuffer.length ≤ n → n + 1 ≤ f →
      processBufferFuel f now s = processBufferFuel (n + 1) now s := by
  intro n
  induction n with
  | zero =>
    intro now s f hlen hf
    obtain ⟨f', rfl⟩ : ∃ f', f = f' + 1 := ⟨f - 1, by omega⟩
    rw [processBufferFuel_succ, processBufferFuel_succ]
    have hkb : (pruneState now s).keyBuffer = [] :=
      List.length_eq_zero.mp (Nat.le_zero.mp hlen)
    cases hexp : getExpectedLetter (pruneState now s) with
    | none => simp only [hexp]
    | some e => simp only [hexp, hkb, List.findIdx?]
  | succ n ih =>
    intro now s f hlen hf
    obtain ⟨f', rfl⟩ : ∃ f', f = f' + 1 := ⟨f - 1, by omega⟩
    rw [processBufferFuel_succ, processBufferFuel_succ]
    cases hexp : getExpectedLetter (pruneState now s) with
    | none => simp only [hexp]
    | some e =>
      cases hfind : (pruneState now s).keyBuffer.findIdx? (fun ev => ev.key == e) with
      | none => simp only [hexp, hfind]
      | some i =>
        simp only [hexp, hfind]
        have hi : i < (pruneState now s).keyBuffer.length :=
          (List.findIdx?_eq_some_iff_findIdx_eq.mp hfind).1
        have hlt := consume_keyBuffer_lt e i (pruneState now s) hi
        have hrec : processBufferFuel f' now (consumeStep e i (pruneState now s)).1 =
            processBufferFuel (n + 1) now (consumeStep e i (pruneState now s)).1 := by
          apply ih
          · exact Nat.le_trans (pruneState_keyBuffer_le _ _) (by omega)
          · omega
        rw [hrec]

/-- The drain pass never grows the key buffer. -/
lemma processBufferFuel_keyBuffer_le :
    ∀ (f now : Nat) (s : EngineState),
      (processBufferFuel f now s).1.keyBuffer.length ≤ s.keyBuffer.length := by
  intro f
  induction f with
  | zero => intro now s; exact Nat.le_refl _
  | succ f ih =>
    intro now s
    rw [processBufferFuel_succ]
    cases hexp : getExpectedLetter (pruneState now s) with
    | none => simpa only [hexp] using pruneState_keyBuffer_le now s
    | some e =>
      cases hfind : (pruneState now s).keyBuffer.findIdx? (fun ev => ev.key == e) with
      | none => simpa only [hexp, hfind] using pruneState_keyBuffer_le now s
      | some i =>
        simp only [hexp, hfind]
        have hi : i < (pruneState now s).keyBuffer.length :=
          (List.findIdx?_eq_some_iff_findIdx_eq.mp hfind).1
        have hlt := consume_keyBuffer_lt e i (pruneState now s) hi
        have h2 := ih now (consumeStep e i (pruneState now s)).1
        have h3 := pruneState_keyBuffer_le now s
        omega

/-- After a full drain pass, no remaining buffered entry matches the
expected letter of the final state. -/
lemma processBufferFuel_no_match :
    ∀ (n now : Nat) (s : EngineState) (e : Char),
      (pruneState now s).keyBuffer.length ≤ n →
      getExpectedLetter (processBufferFuel (n + 1) now s).1 = some e →
      (processBufferFuel (n + 1) now s).1.keyBuffer.findIdx? (fun ev => ev.key == e) = none := by
  intro n
  induction n with
  | zero =>
    intro now s e hlen hexp2
    have hkb : (pruneState now s).keyBuffer = [] :=
      List.length_eq_zero.mp (Nat.le_zero.mp hlen)
    rw [processBufferFuel_succ] at hexp2 ⊢
    cases hexp : getExpectedLetter (pruneState now s) with
    | none => simp only [hexp, hkb, List.findIdx?]
    | some e0 => simp only [hexp, hkb, List.findIdx?]
  | succ n ih =>
    intro now s e hlen hexp2
    rw [processBufferFuel_succ] at hexp2 ⊢
    cases hexp : getExpectedLetter (pruneState now s) with
    | none =>
      simp only [hexp] at hexp2 ⊢
      exact absurd hexp2 (by simp)
    | some e0 =>
      cases hfind : (pruneState now s).keyBuffer.findIdx? (fun ev => ev.key == e0) with
      | none =>
        simp only [hexp, hfind] at hexp2 ⊢
        rw [← Option.some.inj hexp2]
        exact hfind
      | some i =>
        simp only [hexp, hfind] at hexp2 ⊢
        have hi : i < (pruneState now s).keyBuffer.length :=
          (List.findIdx?_eq_some_iff_findIdx_eq.mp hfind).1
        have hlt := consume_keyBuffer_lt e0 i (pruneState now s) hi
        have hb : (pruneState now (consumeStep e0 i (pruneState now s)).1).keyBuffer.length ≤ n :=
          Nat.le_trans (pruneState_keyBuffer_le _ _) (by omega)
        exact ih now (consumeStep e0 i (pruneState now s)).1 e hb hexp2

lemma addToBuffer_fields (now : Nat) (c : Char) (s : EngineState) :
    (addToBuffer now c s).phase = s.phase ∧
    (addToBuffer now c s).typedBuffer = s.typedBuffer ∧
    (addToBuffer now c s).typingCurrentIndex = s.typingCurrentIndex ∧
    (addToBuffer now c s).wordIndex = s.wordIndex := by
  obtain ⟨wi, ph, tb, bhs, tci, ann, si, kb, lk, la⟩ := s
  unfold addToBuffer pruneState
  cases lk with
  | none =>
    dsimp only
    split <;> exact ⟨rfl, rfl, rfl, rfl⟩
  | some lkev =>
    dsimp only
    split <;> [exact ⟨rfl, rfl, rfl, rfl⟩; skip]
    split <;> exact ⟨rfl, rfl, rfl, rfl⟩

/-! The claims. -/

/-- C9: every drain pass over the type-ahead buffer terminates.  Any
fuel beyond the buffer length plus one yields the same result as
processBuffer, so the recursion stops after at most buffer-length
consumptions; moreover a pass never grows the buffer. -/
theorem c9_drain_terminates (now : Nat) (s : EngineState) (extra : Nat) :
    processBufferFuel (s.keyBuffer.length + 1 + extra) now s = processBuffer now s ∧
    (processBuffer now s).1.keyBuffer.length ≤ s.keyBuffer.length := by
  constructor
  · unfold processBuffer
    apply processBufferFuel_stable s.keyBuffer.length now s
    · exact pruneState_keyBuffer_le now s
    · omega
  · exact processBufferFuel_keyBuffer_le _ now s

/-- The C2 scenario: word DOG, freshly entered type_prefix(3), with the
keys O, D, G buffered in that arrival order, all within the TTL. -/
def c2Start : EngineState :=
  { wordIndex := 0, phase := .typePfx 3, typedBuffer := [], blendHighlightStep := 4,
    typingCurrentIndex := 0, announcement := "", showImage := true,
    keyBuffer := [⟨'O', 10⟩, ⟨'D', 20⟩, ⟨'G', 30⟩], lastKey := some ⟨'G', 30⟩,
    lastAuto := "DOG:type_prefix:3" }

/-- C2: with O, D, G buffered out of order while D, O, G is expected,
one drain pass consumes them in correct-letter order (the typedSet
trace grows D, DO, DOG) and completes the word (next word, phase
clickLetter 0); and in general a drain pass repeats until no buffered
entry matches the expected letter of the state it stops in. -/
theorem c2_buffer_drain :
    ((processBuffer 100 c2Start).1.wordIndex = 1 ∧
     (processBuffer 100 c2Start).1.phase = Phase.clickLetter 0 ∧
     (processBuffer 100 c2Start).2.filterMap
        (fun e => match e with | Effect.typedSet l => some l | _ => none) =
       [['D'], ['D', 'O'], ['D', 'O', 'G']]) ∧
    (∀ (now : Nat) (s : EngineState) (e : Char),
      getExpectedLetter (processBuffer now s).1 = some e →
      (processBuffer now s).1.keyBuffer.findIdx? (fun ev => ev.key == e) = none) := by
  constructor
  · exact ⟨by decide, by decide, by decide⟩
  · intro now s e h
    unfold processBuffer at h ⊢
    exact processBufferFuel_no_match s.keyBuffer.length now s e (pruneState_keyBuffer_le now s) h

theorem c2_buffer_drain_witness :
    (processBuffer 0 initState).1.keyBuffer.findIdx? (fun ev => ev.key == 'D') = none :=
  c2_buffer_drain.2 0 initState 'D' (by decide)

/-- A state during the non-interactive blend phase holding one buffered
key whose TTL has expired by time 3000. -/
def c10Cex : EngineState :=
  { initState with phase := Phase.blendPfx 2, keyBuffer := [⟨'A', 0⟩] }

/-- C10 counterexample: the claim says that when getExpectedLetter is
null the drain pass leaves all engine state unchanged, but processBuffer
prunes expired entries from the key buffer even then: at time 3000 the
drain pass over c10Cex changes the state. -/
theorem c10_expected_guard_cex :
    getExpectedLetter c10Cex = none ∧ processBuffer 3000 c10Cex ≠ (c10Cex, []) := by
  exact ⟨by decide, by decide⟩

/-- C10 amended: getExpectedLetter is total and returns none during
blend_prefix and when the typing index is at or past k; the key handler
then leaves the state fully unchanged; the drain pass performs no
transition and changes nothing except pruning expired entries from the
key buffer. -/
theorem c10_expected_guard :
    (∀ (s : EngineState) (k : Nat), s.phase = Phase.blendPfx k → getExpectedLetter s = none) ∧
    (∀ (s : EngineState) (k : Nat), s.phase = Phase.typePfx k → k ≤ s.typingCurrentIndex →
      getExpectedLetter s = none) ∧
    (∀ (now : Nat) (c : Char) (s : EngineState), getExpectedLetter s = none →
      onKey now c s = (s, [])) ∧
    (∀ (now : Nat) (s : EngineState), getExpectedLetter s = none →
      processBuffer now s = (pruneState now s, [])) := by
  refine ⟨?_, ?_, ?_, ?_⟩
  · intro s k h
    unfold getExpectedLetter
    rw [h]
  · intro s k hp hk
    unfold getExpectedLetter
    rw [hp]
    apply List.getElem?_eq_none
    have := List.length_take k (lettersOf s.wordIndex)
    omega
  · intro now c s h
    obtain ⟨wi, ph, tb, bhs, tci, ann, si, kb, lk, la⟩ := s
    unfold onKey
    dsimp only
    split
    · cases ph with
      | blendPfx k => rfl
      | clickLetter i => simp only [h]
      | typePfx k => simp only [h]
    · rfl
  · intro now s h
    show processBufferFuel (s.keyBuffer.length + 1) now s = (pruneState now s, [])
    rw [processBufferFuel_succ]
    simp only [getExpectedLetter_pruneState, h]

theorem c10_expected_guard_witness :
    processBuffer 3000 c10Cex = (pruneState 3000 c10Cex, []) :=
  c10_expected_guard.2.2.2 3000 c10Cex (by decide)

/-- C1: phase transitions follow the fixed total order.  Every
correct-click, blend-timer, and prefix-completion transition advances
phaseRank by exactly one (modulo the wrap to the next word), an
incomplete prefix keystroke never changes the phase, and a full correct
pass over the first word visits each of the seven phases exactly once
in order, reaching the next-word transition exactly once at its end. -/
theorem c1_phase_total_order :
    (∀ (s : EngineState) (i : Nat), s.phase = Phase.clickLetter i → i < 3 →
      phaseRank (handleCorrectLetterClick s).1.phase = (phaseRank s.phase + 1) % 7) ∧
    (∀ (s : EngineState) (k : Nat), s.phase = Phase.blendPfx k → (k = 2 ∨ k = 3) →
      phaseRank (blendTimerFire s).phase = (phaseRank s.phase + 1) % 7) ∧
    (∀ (s : EngineState) (k : Nat) (ch : Char), s.phase = Phase.typePfx k → (k = 2 ∨ k = 3) →
      s.typingCurrentIndex + 1 = k →
      phaseRank (handleCorrectType ch s).1.phase = (phaseRank s.phase + 1) % 7 ∧
      (handleCorrectType ch s).1.wordIndex =
        (if k = 3 then (s.wordIndex + 1) % 2 else s.wordIndex)) ∧
    (∀ (s : EngineState) (k : Nat) (ch : Char), s.phase = Phase.typePfx k →
      s.typingCurrentIndex + 1 < k →
      (handleCorrectType ch s).1.phase = s.phase ∧
      (handleCorrectType ch s).1.wordIndex = s.wordIndex) ∧
    ((grunStates fullPassInputs initState).map (fun s => s.phase) =
       [Phase.clickLetter 1, Phase.blendPfx 2, Phase.typePfx 2, Phase.typePfx 2,
        Phase.clickLetter 2, Phase.blendPfx 3, Phase.typePfx 3, Phase.typePfx 3,
        Phase.typePfx 3, Phase.clickLetter 0] ∧
     (grunStates fullPassInputs initState).map (fun s => s.wordIndex) =
       [0, 0, 0, 0, 0, 0, 0, 0, 0, 1]) := by
  refine ⟨?_, ?_, ?_, ?_, by decide, by decide⟩
  · intro s i hp hi
    obtain ⟨wi, ph, tb, bhs, tci, ann, si, kb, lk, la⟩ := s
    simp only at hp
    subst hp
    interval_cases i <;> rfl
  · intro s k hp hk
    obtain ⟨wi, ph, tb, bhs, tci, ann, si, kb, lk, la⟩ := s
    simp only at hp
    subst hp
    rcases hk with rfl | rfl <;> rfl
  · intro s k ch hp hk hidx
    obtain ⟨wi, ph, tb, bhs, tci, ann, si, kb, lk, la⟩ := s
    simp only at hp hidx
    subst hp
    rcases hk with rfl | rfl <;>
      (unfold handleCorrectType resetForNext; dsimp only; rw [if_pos hidx]; exact ⟨rfl, rfl⟩)
  · intro s k ch hp hidx
    obtain ⟨wi, ph, tb, bhs, tci, ann, si, kb, lk, la⟩ := s
    simp only at hp hidx
    subst hp
    unfold handleCorrectType
    dsimp only
    rw [if_neg (by omega)]
    exact ⟨rfl, rfl⟩

theorem c1_phase_total_order_witness :
    phaseRank (handleCorrectLetterClick initState).1.phase = (phaseRank initState.phase + 1) % 7 :=
  c1_phase_total_order.1 initState 0 rfl (by omega)

/-- C5: in type_prefix(k), submitting the k target letters in order
makes the typed buffer equal the full prefix at the moment the index
reaches k (the last value handed to setTypedBuffer), and the engine
then transitions per the fixed order: k = 2 to clickLetter 2 on the
same word, k = 3 to the next word at clickLetter 0.  The same holds for
the strict variant handler. -/
theorem c5_type_progress :
    ∀ (wi k : Nat), wi < 2 → (k = 2 ∨ k = 3) →
      (((submitAll ((lettersOf wi).take k) (typeEntry wi k)).2.filterMap
          (fun e => match e with | Effect.typedSet l => some l | _ => none)).getLast? =
        some ((lettersOf wi).take k) ∧
       (if k = 2 then
          (submitAll ((lettersOf wi).take k) (typeEntry wi k)).1.phase = Phase.clickLetter 2 ∧
          (submitAll ((lettersOf wi).take k) (typeEntry wi k)).1.wordIndex = wi
        else
          (submitAll ((lettersOf wi).take k) (typeEntry wi k)).1.phase = Phase.clickLetter 0 ∧
          (submitAll ((lettersOf wi).take k) (typeEntry wi k)).1.wordIndex = (wi + 1) % 2)) ∧
      (((strictSubmitAll ((lettersOf wi).take k) (strictTypeEntry wi k)).2.filterMap
            (fun e => match e with | Effect.typedSet l => some l | _ => none)).getLast? =
          some ((lettersOf wi).take k) ∧
       (if k = 2 then
          (strictSubmitAll ((lettersOf wi).take k) (strictTypeEntry wi k)).1.phase =
            Phase.clickLetter 2
        else
          (strictSubmitAll ((lettersOf wi).take k) (strictTypeEntry wi k)).1.phase =
            Phase.clickLetter 0 ∧
          (strictSubmitAll ((lettersOf wi).take k) (strictTypeEntry wi k)).1.wordIndex =
            (wi + 1) % 2)) := by
  intro wi k hwi hk
  constructor
  · interval_cases wi <;> rcases hk with rfl | rfl <;> exact ⟨by decide, by decide⟩
  · interval_cases wi <;> rcases hk with rfl | rfl <;> exact ⟨by decide, by decide⟩

theorem c5_type_progress_witness :
    ((submitAll ((lettersOf 0).take 2) (typeEntry 0 2)).2.filterMap
        (fun e => match e with | Effect.typedSet l => some l | _ => none)).getLast? =
      some ((lettersOf 0).take 2) :=
  ((c5_type_progress 0 2 (by omega) (Or.inl rfl)).1).1

/-- C6: a wrong key in an interactive phase (where an expected letter
exists) leaves phase, typing index, and typed buffer unchanged and
produces exactly one wrong cue together with one transient Try again
announcement; likewise for the wrong branch of the variant-2 handleType
handler. -/
theorem c6_wrong_key :
    (∀ (now : Nat) (c : Char) (s : EngineState) (e : Char),
      getExpectedLetter s = some e → c.toUpper ∈ LETTERS → c.toUpper ≠ e →
      (onKey now c s).1.phase = s.phase ∧
      (onKey now c s).1.typingCurrentIndex = s.typingCurrentIndex ∧
      (onKey now c s).1.typedBuffer = s.typedBuffer ∧
      (onKey now c s).2 = [Effect.soundEffect "wrong", Effect.announce "Try again"]) ∧
    (∀ (c : Char) (s : EngineState) (k : Nat) (e : Char),
      s.phase = Phase.typePfx k →
      (((lettersOf s.wordIndex).take k).map Char.toUpper)[s.typingCurrentIndex]? = some e →
      c.toUpper ≠ e →
      handleType2 c s = ({ s with announcement := "Try again" },
        [Effect.soundEffect "wrong", Effect.announce "Try again"])) := by
  constructor
  · intro now c s e he hmem hne
    obtain ⟨wi, ph, tb, bhs, tci, ann, si, kb, lk, la⟩ := s
    unfold onKey
    dsimp only
    rw [if_pos hmem]
    cases ph with
    | blendPfx k => exact absurd he (by simp [getExpectedLetter])
    | clickLetter i =>
      simp only [he]
      rw [if_neg hne]
      exact ⟨(addToBuffer_fields _ _ _).1, (addToBuffer_fields _ _ _).2.2.1,
             (addToBuffer_fields _ _ _).2.1, rfl⟩
    | typePfx k =>
      simp only [he]
      rw [if_neg hne]
      exact ⟨(addToBuffer_fields _ _ _).1, (addToBuffer_fields _ _ _).2.2.1,
             (addToBuffer_fields _ _ _).2.1, rfl⟩
  · intro c s k e hp he hne
    obtain ⟨wi, ph, tb, bhs, tci, ann, si, kb, lk, la⟩ := s
    simp only at hp he
    subst hp
    unfold handleType2
    dsimp only
    simp only [he]
    rw [if_neg hne]

theorem c6_wrong_key_witness :
    (onKey 0 'X' initState).1.phase = initState.phase ∧
    (onKey 0 'X' initState).1.typingCurrentIndex = initState.typingCurrentIndex ∧
    (onKey 0 'X' initState).1.typedBuffer = initState.typedBuffer ∧
    (onKey 0 'X' initState).2 = [Effect.soundEffect "wrong", Effect.announce "Try again"] :=
  c6_wrong_key.1 0 'X' initState 'D' (by decide) (by decide) (by decide)

/-- C7: phase entry is idempotent against duplicate triggering.  When
the stored signature already equals the signature of (word, phase), the
auto-pronounce effect performs no action at all (no audio, no animation
restart) and leaves the signature unchanged; when it differs, the
signature is updated to the new one. -/
theorem c7_entry_idempotent :
    ∀ (w : String) (p : Phase) (a : String),
      (a = phaseSignature w p → autoRun w p a = (a, [])) ∧
      (a ≠ phaseSignature w p → (autoRun w p a).1 = phaseSignature w p) := by
  intro w p a
  constructor
  · intro h
    unfold autoRun
    rw [if_pos h]
  · intro h
    unfold autoRun
    rw [if_neg h]

theorem c7_entry_idempotent_witness :
    autoRun "DOG" (Phase.blendPfx 2) "DOG:blend_prefix:2" = ("DOG:blend_prefix:2", []) :=
  (c7_entry_idempotent "DOG" (Phase.blendPfx 2) "DOG:blend_prefix:2").1 (by decide)

/-- C3 counterexample: not every engine timer is canceled on a phase
change.  Pressing the correct key D in clickLetter 0 schedules the
1000 ms announcement-clear timeout and then advances the phase; the
timer is still pending after the phase change, and when it fires it
mutates the announcement state (Correct becomes empty), so a timer
scheduled under the old phase mutates engine state after the phase
change, contradicting the claim. -/
theorem c3_timer_cancel_cex :
    (onKeySys 0 'D' initSys).st.phase ≠ initSys.st.phase ∧
    (onKeySys 0 'D' initSys).timers ≠ [] ∧
    (runUntil 8 1000 (onKeySys 0 'D' initSys)).st.announcement ≠
      (onKeySys 0 'D' initSys).st.announcement := by decide

/-- C3 amended: resetting to the next word cancels exactly the timers
registered in the blend timer group (blendTimeoutsRef): after
resetForNext no timer whose id was in the group remains pending, and
the group itself is emptied, so no blend-group callback from the old
word can ever fire; announcement-clear timeouts and the inner 100 ms
blend-to-type handoff timeout are not in the group and may still fire
after a reset or phase change. -/
theorem c3_timer_cancel :
    ∀ (now : Nat) (y : Sys) (tm : Timer), tm ∈ y.timers → tm.id ∈ y.blendIds →
      tm ∉ (resetForNextSys now y).timers ∧ (resetForNextSys now y).blendIds = [] := by
  intro now y tm hmem hid
  constructor
  · intro hcontra
    have h2 : (!(y.blendIds.contains tm.id)) = true :=
      (List.mem_filter.mp hcontra).2
    simp only [Bool.not_eq_true'] at h2
    rw [List.contains_eq_any_beq] at h2
    simp at h2
    exact h2 tm.id hid rfl
  · rfl

/-- A system holding one pending blend-group timer. -/
def c3WitSys : Sys :=
  { st := initState, timers := [⟨5, 1000, TimerCb.setStep 1⟩], blendIds := [5], nextId := 6 }

theorem c3_timer_cancel_witness :
    (⟨5, 1000, TimerCb.setStep 1⟩ : Timer) ∉ (resetForNextSys 0 c3WitSys).timers ∧
    (resetForNextSys 0 c3WitSys).blendIds = [] :=
  c3_timer_cancel 0 c3WitSys ⟨5, 1000, TimerCb.setStep 1⟩ (by decide) (by decide)

/-- C4: entering blend_prefix(k) schedules the staggered animation: by
time i*1000 (i < k) the animation step is i+1 and the phase is still
the entry phase; by time k*1000 the step is the terminal value k+1 with
the phase still unchanged; and 100 ms later the phase has become
type_prefix(k). -/
theorem c4_blend_timing :
    ∀ (st : EngineState) (k : Nat), (k = 2 ∨ k = 3) →
      (∀ i, i < k →
        (runUntil 8 (i * 1000)
            (enterBlend 0 k { st := st, timers := [], blendIds := [], nextId := 0 })).st.blendHighlightStep = i + 1 ∧
        (runUntil 8 (i * 1000)
            (enterBlend 0 k { st := st, timers := [], blendIds := [], nextId := 0 })).st.phase = st.phase) ∧
      (runUntil 8 (k * 1000)
          (enterBlend 0 k { st := st, timers := [], blendIds := [], nextId := 0 })).st.blendHighlightStep = k + 1 ∧
      (runUntil 8 (k * 1000)
          (enterBlend 0 k { st := st, timers := [], blendIds := [], nextId := 0 })).st.phase = st.phase ∧
      (runUntil 8 (k * 1000 + 100)
          (enterBlend 0 k { st := st, timers := [], blendIds := [], nextId := 0 })).st.phase = Phase.typePfx k := by
  intro st k hk
  obtain ⟨wi, ph, tb, bhs, tci, ann, si, kb, lk, la⟩ := st
  rcases hk with rfl | rfl <;>
    exact ⟨fun i hi => by interval_cases i <;> exact ⟨rfl, rfl⟩, rfl, rfl, rfl⟩

theorem c4_blend_timing_witness :
    (runUntil 8 (2 * 1000 + 100)
        (enterBlend 0 2 { st := initState, timers := [], blendIds := [], nextId := 0 })).st.phase =
      Phase.typePfx 2 :=
  (c4_blend_timing initState 2 (Or.inl rfl)).2.2.2

/-- C8: playLetterSound always resolves in both variants, whatever the
audio environment does; when no asset is cached, or playback rejects,
the fallback speaks the fixed phonetic pronunciation (letter, name,
sound) from the PHONICS table, so audio failure never propagates. -/
theorem c8_letter_sound_resolves :
    ∀ (letter : String) (e1 : Env1) (e2 : Env2),
      (playLetterSound1 letter e1).1 = PromiseResult.resolved ∧
      (playLetterSound2 letter e2).1 = PromiseResult.resolved ∧
      (e1.cached = false → e1.ttsOk = true →
        (playLetterSound1 letter e1).2 = [AudioEvent.ttsSpoken (ttsUtterance letter.toUpper)]) ∧
      (e1.cached = true → e1.setupThrows = false → e1.play = PlayOutcome.rejects →
        e1.ttsOk = true →
        (playLetterSound1 letter e1).2 = [AudioEvent.ttsSpoken (ttsUtterance letter.toUpper)]) ∧
      ttsUtterance "D" = "D, dee. duh" := by
  intro letter e1 e2
  obtain ⟨c1, st1, p1, t1⟩ := e1
  obtain ⟨c2, wa2, so2, wt2, pa2, pb2, ft2, fp2, t2⟩ := e2
  refine ⟨?_, ?_, ?_, ?_, by decide⟩
  · cases c1 <;> cases st1 <;> cases p1 <;> rfl
  · cases c2 <;> cases wa2 <;> cases so2 <;> cases wt2 <;> cases pa2 <;> cases pb2 <;>
      cases ft2 <;> cases fp2 <;> rfl
  · intro hc ht
    simp only at hc ht
    subst hc
    subst ht
    rfl
  · intro hc hs hp ht
    simp only at hc hs hp ht
    subst hc
    subst hs
    subst hp
    subst ht
    rfl

theorem c8_letter_sound_resolves_witness :
    (playLetterSound1 "d"
        { cached := false, setupThrows := false, play := PlayOutcome.ends, ttsOk := true }).2 =
      [AudioEvent.ttsSpoken (ttsUtterance "d".toUpper)] :=
  (c8_letter_sound_resolves "d"
      { cached := false, setupThrows := false, play := PlayOutcome.ends, ttsOk := true }
      { cached := true, webAudio := true, sourceOk := true, waTryThrows := false,
        play1 := PlayOutcome.ends, play2 := PlayOutcome.ends, fbTryThrows := false,
        fbPlay := PlayOutcome.ends, ttsOk := true }).2.2.1 rfl rfl

end ReadingGame
